import Mathlib

/-
Verification of the cronograma-mcp schedule server (src/cronograma-mcp/main.py)
against its natural-language specification.

The Python source is shallowly embedded: payloads become a JSON-like value
type, Python floats become exact rationals, code that can raise becomes
Except-valued, and the mutable file registry plus the output directory become
an explicit ServerState threaded through the operations.
-/

namespace Cronograma

/-- JSON-like values, the shape of the duck-typed payloads the Python tools
receive. Numbers are modelled as exact rationals. -/
inductive JVal where
  | null
  | bool (b : Bool)
  | num (q : ℚ)
  | str (s : String)
  | arr (xs : List JVal)
  | obj (kvs : List (String × JVal))

/-- First-match association lookup; Python dict keys are unique, so this is
dict access / dict.get. -/
def alookup {α : Type} : List (String × α) → String → Option α
  | [], _ => none
  | (k, v) :: rest, key => if k = key then some v else alookup rest key

/-- Python truthiness of a JSON value (`if not v:`). -/
def truthyV : JVal → Bool
  | .null => false
  | .bool b => b
  | .num q => q ≠ 0
  | .str s => s ≠ ""
  | .arr xs => ¬ xs.isEmpty
  | .obj kvs => ¬ kvs.isEmpty

/-- Truthiness of `d.get(k)`: a missing key yields None, which is falsy. -/
def truthyO : Option JVal → Bool
  | none => false
  | some v => truthyV v

/-- Digit predicate for the decimal-string fragment of Python float(). -/
def isDigitCh (c : Char) : Bool := '0' ≤ c ∧ c ≤ '9'

/-- Numeric value of a digit list, most significant first. -/
def natOfDigits (ds : List Char) : ℕ :=
  ds.foldl (fun a c => 10 * a + (c.toNat - '0'.toNat)) 0

/-- Models Python float() on strings for the plain decimal fragment
sign? digits ('.' digits)? (with at least one digit). Exotic inputs that
Python also accepts (exponents, inf/nan, underscores, padding) are outside
this fragment and are treated as parse failures. -/
def parsePyFloat (s : String) : Option ℚ :=
  let cs := s.data
  let sign : ℚ × List Char :=
    match cs with
    | '-' :: rest => (-1, rest)
    | '+' :: rest => (1, rest)
    | _ => (1, cs)
  let intPart := sign.2.takeWhile isDigitCh
  let rest := sign.2.dropWhile isDigitCh
  match rest with
  | [] =>
      if intPart.isEmpty then none
      else some (sign.1 * natOfDigits intPart)
  | '.' :: rest2 =>
      let fracPart := rest2.takeWhile isDigitCh
      let rest3 := rest2.dropWhile isDigitCh
      if rest3.isEmpty ∧ (intPart.isEmpty = false ∨ fracPart.isEmpty = false) then
        some (sign.1 * ((natOfDigits intPart : ℚ) +
          (natOfDigits fracPart : ℚ) / (10 ^ fracPart.length)))
      else none
  | _ => none

/-- Models Python float(v) on a JSON value: numbers pass through, bools are
0/1, numeric strings are parsed; anything else raises (none here). -/
def pyFloat : JVal → Option ℚ
  | .num q => some q
  | .bool b => some (if b then 1 else 0)
  | .str s => parsePyFloat s
  | _ => none

/-- Python's built-in round() with no ndigits: round half to even
(banker's rounding), on exact rationals. -/
def roundHalfEven (q : ℚ) : ℤ :=
  if q - ⌊q⌋ < 1/2 then ⌊q⌋
  else if 1/2 < q - ⌊q⌋ then ⌊q⌋ + 1
  else if ⌊q⌋ % 2 = 0 then ⌊q⌋ else ⌊q⌋ + 1

/-- Zero padding to two digits, the translation of the %02d format. -/
def pad2 (n : ℕ) : String :=
  if n < 10 then "0" ++ toString n else toString n

/-- The seconds value hours_to_duration_display works from: clamp negatives
to 0, multiply by 3600 and apply Python round(). -/
def durationSeconds (hours : ℚ) : ℕ :=
  (roundHalfEven ((if hours < 0 then 0 else hours) * 3600)).toNat

/-- Renders total seconds as H:MM:SS (H unbounded, MM and SS zero padded). -/
def renderHMS (n : ℕ) : String :=
  toString (n / 3600) ++ ":" ++ pad2 (n % 3600 / 60) ++ ":" ++ pad2 (n % 60)

/-- Embedding of hours_to_duration_display (main.py lines 66-80): converts
decimal hours to the H:MM:SS display, allowing H to exceed 24. The clamp
makes the seconds value nonnegative, so Nat arithmetic matches Python's
floor divisions. -/
def hours_to_duration_display (hours : ℚ) : String :=
  let hours2 := if hours < 0 then 0 else hours
  let total_seconds := (roundHalfEven (hours2 * 3600)).toNat
  let h := total_seconds / 3600
  let m := total_seconds % 3600 / 60
  let s := total_seconds % 60
  toString h ++ ":" ++ pad2 m ++ ":" ++ pad2 s

/-- Modelled from the spec: the Duration Codec as section 4.1 words it,
with totalSeconds = round(hours * 3600) under round-half-up semantics
(floor of x + 1/2). Used to compare the spec's wording with the code. -/
def encodeSpecHalfUp (hours : ℚ) : String :=
  let hours2 := if hours < 0 then 0 else hours
  let total_seconds := (⌊hours2 * 3600 + 1/2⌋).toNat
  let h := total_seconds / 3600
  let m := total_seconds % 3600 / 60
  let s := total_seconds % 60
  toString h ++ ":" ++ pad2 m ++ ":" ++ pad2 s

/-- A field-level validation issue, the {"field": ..., "issue": ...} dicts. -/
structure FieldIssue where
  field : String
  issue : String
deriving DecidableEq, Repr

/-- An error response {"ok": False, "error_code": ..., "message": ...,
"details": ...} (ok is implied false by the type). -/
structure ErrorResponse where
  error_code : String
  message : String
  details : List FieldIssue
deriving DecidableEq, Repr

/-- Dotted/indexed path for a macro-level field, the translation of the
f-strings in validate_payload. -/
def macroPath (idx : ℕ) (fld : String) : String :=
  "macros[" ++ toString idx ++ "]." ++ fld

/-- Dotted/indexed path for a micro-level field. -/
def microPath (idx midx : ℕ) (fld : String) : String :=
  "macros[" ++ toString idx ++ "].micros[" ++ toString midx ++ "]." ++ fld

/-- The issue recorded when a macro violates the mandatory-micros rule
(main.py lines 141-145). -/
def microsRuleIssue (idx : ℕ) : FieldIssue :=
  ⟨macroPath idx "micros", "macro SEMPRE deve conter pelo menos 1 micro (regra obrigatória)"⟩

/-- The issue appended when total rows exceed the limit (lines 185-188). -/
def totalRowsIssue (total_rows : ℕ) (limit : ℚ) : FieldIssue :=
  ⟨"total_rows",
   "total de linhas (" ++ toString total_rows ++ ") excede o limite (" ++ toString limit ++ ")"⟩

/-- The VALIDATION_ERROR response (lines 196-202). -/
def validationError (errors : List FieldIssue) : ErrorResponse :=
  ⟨"VALIDATION_ERROR", "Erro de validação no payload", errors⟩

/-- The MAX_ROWS_EXCEEDED response (lines 189-194); the accumulated errors
plus the total_rows issue become the details. -/
def maxRowsError (total_rows : ℕ) (limit : ℚ) (errors : List FieldIssue) : ErrorResponse :=
  ⟨"MAX_ROWS_EXCEEDED",
   "O cronograma possui " ++ toString total_rows ++
     " linhas, excedendo o limite de " ++ toString limit,
   errors ++ [totalRowsIssue total_rows limit]⟩

/-- Validation of one micro (lines 150-178, minus the row counting): name
must be truthy, hours must be present, float-convertible and positive.
A non-dict micro raises (the .get call), modelled by the error branch. -/
def microIssues (idx midx : ℕ) (micro : JVal) : Except Unit (List FieldIssue) :=
  match micro with
  | .obj kvs =>
      let nameIssues :=
        if truthyO (alookup kvs "name") then []
        else [(⟨microPath idx midx "name", "nome da micro obrigatório"⟩ : FieldIssue)]
      let hoursIssues :=
        match alookup kvs "hours" with
        | none => [(⟨microPath idx midx "hours", "hours obrigatório"⟩ : FieldIssue)]
        | some hv =>
            match pyFloat hv with
            | none => [(⟨microPath idx midx "hours", "hours deve ser numérico"⟩ : FieldIssue)]
            | some q =>
                if q ≤ 0 then
                  [(⟨microPath idx midx "hours", "hours deve ser maior que 0"⟩ : FieldIssue)]
                else []
      .ok (nameIssues ++ hoursIssues)
  | _ => .error ()

/-- The inner for-loop over a macro's micros, from index midx on. -/
def microsIssuesFrom (idx midx : ℕ) : List JVal → Except Unit (List FieldIssue)
  | [] => .ok []
  | m :: rest =>
      match microIssues idx midx m with
      | .error e => .error e
      | .ok e1 =>
          match microsIssuesFrom idx (midx + 1) rest with
          | .error e => .error e
          | .ok e2 => .ok (e1 ++ e2)

/-- Validation of one macro (lines 135-158): the name check, the mandatory
micros rule, and on success the micro loop. Returns the issues together with
the rows this macro contributes to total_rows (1 for the macro plus 1 per
micro; a macro failing the micros rule contributes none). A non-dict macro
raises at macro.get, modelled by the error branch. -/
def macroCheck (idx : ℕ) (mac : JVal) : Except Unit (List FieldIssue × ℕ) :=
  match mac with
  | .obj kvs =>
      let nameIssues :=
        if truthyO (alookup kvs "name") then []
        else [(⟨macroPath idx "name", "nome da macro obrigatório"⟩ : FieldIssue)]
      match alookup kvs "micros" with
      | some (.arr micros) =>
          if micros.isEmpty then
            .ok (nameIssues ++ [microsRuleIssue idx], 0)
          else
            match microsIssuesFrom idx 0 micros with
            | .error e => .error e
            | .ok mi => .ok (nameIssues ++ mi, 1 + micros.length)
      | some _ => .ok (nameIssues ++ [microsRuleIssue idx], 0)
      | none => .ok (nameIssues ++ [microsRuleIssue idx], 0)
  | _ => .error ()

/-- The outer for-loop over the macros, from index idx on, accumulating
issues and the row count. -/
def macrosCheck (idx : ℕ) : List JVal → Except Unit (List FieldIssue × ℕ)
  | [] => .ok ([], 0)
  | m :: rest =>
      match macroCheck idx m with
      | .error e => .error e
      | .ok (e1, r1) =>
          match macrosCheck (idx + 1) rest with
          | .error e => .error e
          | .ok (e2, r2) => .ok (e1 ++ e2, r1 + r2)

/-- The project checks (lines 119-124): project present, project.name
truthy. A non-dict project raises at project.get. -/
def projectIssues (payload : List (String × JVal)) : Except Unit (List FieldIssue) :=
  match alookup payload "project" with
  | none => .ok [(⟨"project", "campo obrigatório"⟩ : FieldIssue)]
  | some (.obj kvs) =>
      .ok (if truthyO (alookup kvs "name") then []
           else [(⟨"project.name", "nome do projeto obrigatório"⟩ : FieldIssue)])
  | some _ => .error ()

/-- payload.get("settings", {}) as a key-value list; settings.get on a
non-dict settings value raises. -/
def settingsOf (payload : List (String × JVal)) : Except Unit (List (String × JVal)) :=
  match alookup payload "settings" with
  | none => .ok []
  | some (.obj kvs) => .ok kvs
  | some _ => .error ()

/-- The row ceiling (lines 181-182): settings.get("max_rows", MAX_ROWS).
The later comparison total_rows > limit raises unless the value is numeric
(bools count as 0/1 in Python comparisons). -/
def ceilingOf (maxRowsDefault : ℕ) (payload : List (String × JVal)) : Except Unit ℚ :=
  match settingsOf payload with
  | .error e => .error e
  | .ok s =>
      match alookup s "max_rows" with
      | none => .ok (maxRowsDefault : ℚ)
      | some (.num q) => .ok q
      | some (.bool b) => .ok (if b then 1 else 0)
      | some _ => .error ()

/-- The issue recorded for a missing or empty macros field (lines 127-130). -/
def macrosFieldIssue (payload : List (String × JVal)) : List FieldIssue :=
  match alookup payload "macros" with
  | none => [⟨"macros", "campo obrigatório"⟩]
  | some _ => [⟨"macros", "deve conter pelo menos 1 macro"⟩]

/-- Embedding of validate_payload (main.py lines 111-204). Returns
Except.error when the Python function would raise (propagating to the
caller's try/except), Except.ok none when the payload is valid, and
Except.ok (some e) with the structured error otherwise. The row-count check
runs only when macros is a non-empty list, and its MAX_ROWS_EXCEEDED return
preempts the VALIDATION_ERROR return. -/
def validate_payload (maxRowsDefault : ℕ) (payload : List (String × JVal)) :
    Except Unit (Option ErrorResponse) :=
  match projectIssues payload with
  | .error e => .error e
  | .ok projErrs =>
      match alookup payload "macros" with
      | some (.arr ms) =>
          if ms.isEmpty then
            .ok (some (validationError (projErrs ++ macrosFieldIssue payload)))
          else
            match macrosCheck 0 ms with
            | .error e => .error e
            | .ok (macErrs, rows) =>
                let errors := projErrs ++ macErrs
                let total_rows := 1 + rows
                match ceilingOf maxRowsDefault payload with
                | .error e => .error e
                | .ok limit =>
                    if (total_rows : ℚ) > limit then
                      .ok (some (maxRowsError total_rows limit errors))
                    else if errors.isEmpty then .ok none
                    else .ok (some (validationError errors))
      | some _ =>
          .ok (some (validationError (projErrs ++ macrosFieldIssue payload)))
      | none =>
          .ok (some (validationError (projErrs ++ macrosFieldIssue payload)))

/-- The row count validate_payload checks against the ceiling: the initial
project line (total_rows = 1, line 133) plus the contributions of the macro
loop. Only defined (ok) where the code computes it, i.e. when macros is a
non-empty list and the loop does not raise. -/
def checkedRows (payload : List (String × JVal)) : Except Unit ℕ :=
  match alookup payload "macros" with
  | some (.arr ms) =>
      if ms.isEmpty then .error ()
      else
        match macrosCheck 0 ms with
        | .error e => .error e
        | .ok (_, rows) => .ok (1 + rows)
  | some _ => .error ()
  | none => .error ()

/-- settings.get("include_project_row", True), the flag generate_xlsx
(line 220) uses to decide whether to write the project row. The validator
never reads it. -/
def include_project_row (payload : List (String × JVal)) : Except Unit JVal :=
  match settingsOf payload with
  | .error e => .error e
  | .ok s => .ok ((alookup s "include_project_row").getD (.bool true))

/-- A macro's micros as a list (empty when absent or not a list); used to
state row-count formulas. -/
def microsListOf (m : JVal) : List JVal :=
  match m with
  | .obj kvs =>
      match alookup kvs "micros" with
      | some (.arr l) => l
      | some _ => []
      | none => []
  | _ => []

/-- Modelled from the spec: the row-count formula of section 3 and
section 8, 1 row for the project if included plus, per macro, 1 plus the
number of its micros. Compared against the count the validator checks. -/
def specRowCount (includeProject : Bool) (ms : List JVal) : ℕ :=
  (if includeProject then 1 else 0) + (ms.map (fun m => 1 + (microsListOf m).length)).sum

/-- True when a macro object's micros field is absent, not a list, or an
empty list (the condition of line 141); false for non-dict macros, which
raise earlier. -/
def badMicrosField (m : JVal) : Bool :=
  match m with
  | .obj kvs =>
      match alookup kvs "micros" with
      | some (.arr l) => l.isEmpty
      | some _ => true
      | none => true
  | _ => false

/-- One file_registry entry: {"filepath": ..., "filename": ...,
"expires_at": ...}. Time is a single integer timeline. -/
structure FileInfo where
  filepath : String
  filename : String
  expires_at : ℤ
deriving DecidableEq, Repr

/-- The shared mutable state the tools touch: the in-memory token registry
(insertion-ordered, unique keys, like a Python dict) and the set of files
currently on disk in the output directory. -/
structure ServerState where
  registry : List (String × FileInfo)
  disk : List String
deriving DecidableEq, Repr

/-- Python dict assignment d[k] = v: replace in place when the key exists,
else append (insertion order preserved). -/
def dictSet (l : List (String × FileInfo)) (k : String) (v : FileInfo) :
    List (String × FileInfo) :=
  if l.any (fun p => p.1 = k) then
    l.map (fun p => if p.1 = k then (k, v) else p)
  else l ++ [(k, v)]

/-- The disk after the sweep loop of cleanup_expired_files (lines 91-101):
for each expired entry the backing file is unlinked if it exists; delOk
tells whether a given path's deletion succeeds — a failed deletion raises
inside the try and is caught and logged, leaving the file in place. -/
def sweepDisk (now : ℤ) (delOk : String → Bool) :
    List (String × FileInfo) → List String → List String
  | [], disk => disk
  | (_, info) :: rest, disk =>
      sweepDisk now delOk rest
        (if info.expires_at < now ∧ delOk info.filepath = true then
          disk.filter (fun p => p ≠ info.filepath)
        else disk)

/-- Embedding of cleanup_expired_files (main.py lines 86-105): every entry
with expires_at strictly in the past is removed from the registry
unconditionally; its backing file is deleted when the deletion succeeds. -/
def cleanup_expired_files (now : ℤ) (delOk : String → Bool) (st : ServerState) : ServerState :=
  { registry := st.registry.filter (fun p => ! decide (p.2.expires_at < now)),
    disk := sweepDisk now delOk st.registry st.disk }

/-- The Put step of gerar_xlsx (wb.save at line 347 puts the file on disk;
lines 399-408 register it): the artifact is written to the output directory
and recorded under the fresh token with expires_at = now + ttl. -/
def registerGeneratedFile (st : ServerState) (token filepath filename : String)
    (now ttl : ℤ) : ServerState :=
  { registry := dictSet st.registry token ⟨filepath, filename, now + ttl⟩,
    disk := if filepath ∈ st.disk then st.disk else st.disk ++ [filepath] }

/-- What the download endpoint returns: 404 or the file stream. -/
inductive FetchResult where
  | notFound
  | fileStream (filepath filename : String)
deriving DecidableEq, Repr

/-- Embedding of download_file (main.py lines 522-554): sweep first, then
token lookup; a registered token whose backing file is gone from disk is
purged from the registry and reported as 404. -/
def download_file (token : String) (now : ℤ) (delOk : String → Bool)
    (st : ServerState) : FetchResult × ServerState :=
  let st1 := cleanup_expired_files now delOk st
  match alookup st1.registry token with
  | none => (.notFound, st1)
  | some info =>
      if info.filepath ∈ st1.disk then
        (.fileStream info.filepath info.filename, st1)
      else
        (.notFound, { st1 with registry := st1.registry.filter (fun p => p.1 ≠ token) })

/-- Python round(x, 4): banker's rounding at four decimal places. -/
def pyRound4 (q : ℚ) : ℚ := (roundHalfEven (q * 10000) : ℚ) / 10000

/-- The preview of a valid payload (main.py lines 470-480). The project
name is kept as a JSON value: validation only checks truthiness, so it need
not be a string. -/
structure Preview where
  project_name : JVal
  project_total_hours : ℚ
  project_total_duration_display : String
  macro_count : ℕ
  micro_count : ℕ

/-- What the validar tool returns: the ok preview or a structured error. -/
inductive ValidarResponse where
  | okPreview (p : Preview)
  | errResp (e : ErrorResponse)

/-- The totals loop of validar (lines 464-468) for one macro's micros:
sums float(micro["hours"]) and counts the micros; any indexing or
conversion failure raises. -/
def microsTotals : List JVal → Except Unit (ℚ × ℕ)
  | [] => .ok (0, 0)
  | m :: rest =>
      match m with
      | .obj kvs =>
          match alookup kvs "hours" with
          | none => .error ()
          | some hv =>
              match pyFloat hv with
              | none => .error ()
              | some q =>
                  match microsTotals rest with
                  | .error e => .error e
                  | .ok (s, c) => .ok (q + s, 1 + c)
      | _ => .error ()

/-- The totals loop of validar over the macros: project_total_hours and
micro_count accumulated from each macro's micros list. -/
def macrosTotals : List JVal → Except Unit (ℚ × ℕ)
  | [] => .ok (0, 0)
  | m :: rest =>
      match m with
      | .obj kvs =>
          match alookup kvs "micros" with
          | some (.arr l) =>
              match microsTotals l with
              | .error e => .error e
              | .ok (s1, c1) =>
                  match macrosTotals rest with
                  | .error e => .error e
                  | .ok (s2, c2) => .ok (s1 + s2, c1 + c2)
          | some _ => .error ()
          | none => .error ()
      | _ => .error ()

/-- The try-block of the validar tool (main.py lines 451-480): validate,
then build the preview from the recomputed totals. Any exception escapes to
the except-block. -/
def validarBody (maxRowsDefault : ℕ) (payload : List (String × JVal)) :
    Except Unit ValidarResponse :=
  match validate_payload maxRowsDefault payload with
  | .error e => .error e
  | .ok (some err) => .ok (.errResp err)
  | .ok none =>
      match alookup payload "macros" with
      | some (.arr ms) =>
          match macrosTotals ms with
          | .error e => .error e
          | .ok (total, microCount) =>
              match alookup payload "project" with
              | some (.obj kvs) =>
                  match alookup kvs "name" with
                  | some nm =>
                      .ok (.okPreview
                        ⟨nm, pyRound4 total, hours_to_duration_display total,
                         ms.length, microCount⟩)
                  | none => .error ()
              | some _ => .error ()
              | none => .error ()
      | some _ => .error ()
      | none => .error ()

deriving instance DecidableEq for Except

/-- The INTERNAL_ERROR response of validar's except-block (lines 482-489);
the Python message interpolates the exception text. -/
def internalErrorResponse : ErrorResponse :=
  ⟨"INTERNAL_ERROR", "Erro ao validar", []⟩

/-- Embedding of the validar tool (main.py lines 445-489) as a state
transformer over the shared server state: the function body reads and
writes neither the registry nor the disk. -/
def validar (maxRowsDefault : ℕ) (payload : List (String × JVal))
    (st : ServerState) : ValidarResponse × ServerState :=
  (match validarBody maxRowsDefault payload with
   | .ok r => r
   | .error _ => .errResp internalErrorResponse, st)

/-- A one-macro, one-micro tree: the smallest valid macros list. -/
def cexMacrosC2 : List JVal :=
  [.obj [("name", .str "M"), ("micros", .arr [.obj [("name", .str "T"), ("hours", .num 1)]])]]

/-- A valid payload that asks the generator to omit the project row. -/
def cexPayloadC2 : List (String × JVal) :=
  [("project", .obj [("name", .str "P")]),
   ("macros", .arr cexMacrosC2),
   ("settings", .obj [("include_project_row", .bool false)])]

/-- A macro with an empty micros list. -/
def cexMacroC4A : JVal := .obj [("name", .str "A"), ("micros", .arr [])]

/-- A payload whose first macro has no micros while a second, valid macro
plus the project row push the row count over the (valid, positive)
settings.max_rows = 1 ceiling. -/
def cexPayloadC4 : List (String × JVal) :=
  [("project", .obj [("name", .str "P")]),
   ("macros", .arr [cexMacroC4A,
     .obj [("name", .str "B"), ("micros", .arr [.obj [("name", .str "x"), ("hours", .num 1)]])]]),
   ("settings", .obj [("max_rows", .num 1)])]

/-- A payload with exactly the micros-rule violation and nothing else. -/
def payloadC4w : List (String × JVal) :=
  [("project", .obj [("name", .str "P")]),
   ("macros", .arr [cexMacroC4A])]

/-- A single valid micro of one hour. -/
def microC5 : JVal := .obj [("name", .str "T"), ("hours", .num 1)]

/-- The 300-micro scenario: one project, one macro, 300 micros and a
settings.max_rows ceiling of 100, giving 302 computed rows. -/
def payloadC5 : List (String × JVal) :=
  [("project", .obj [("name", .str "Alpha")]),
   ("macros", .arr [.obj [("name", .str "M1"), ("micros", .arr (List.replicate 300 microC5))]]),
   ("settings", .obj [("max_rows", .num 100)])]

/-- A registry state holding one entry that expires at time 5, with its
backing file on disk. -/
def cexStateC3 : ServerState := ⟨[("tok", ⟨"out.xlsx", "out.xlsx", 5⟩)], ["out.xlsx"]⟩

/-- A registry state with a non-expired entry whose backing file is gone. -/
def stateC7 : ServerState := ⟨[("tok", ⟨"gone.xlsx", "gone.xlsx", 100⟩)], []⟩

/-- A registry state with one expired entry whose file is on disk. -/
def stateC8 : ServerState := ⟨[("t", ⟨"f", "f", 0⟩)], ["f"]⟩

/-- A micro object whose hours field is the numeric string "8". -/
def kvsC10 : List (String × JVal) := [("name", .str "T"), ("hours", .str "8")]

/-- The same micro with hours as the number 8. -/
def kvsC10n : List (String × JVal) := [("name", .str "T"), ("hours", .num 8)]

/-
Helper lemmas about the embedded operations.
-/

theorem floor_le_roundHalfEven (q : ℚ) : ⌊q⌋ ≤ roundHalfEven q := by
  unfold roundHalfEven
  split_ifs <;> omega

theorem roundHalfEven_le_floor_add_one (q : ℚ) : roundHalfEven q ≤ ⌊q⌋ + 1 := by
  unfold roundHalfEven
  split_ifs <;> omega

theorem roundHalfEven_mono {a b : ℚ} (h : a ≤ b) : roundHalfEven a ≤ roundHalfEven b := by
  rcases lt_or_le ⌊a⌋ ⌊b⌋ with hf | hf
  · have h1 := roundHalfEven_le_floor_add_one a
    have h2 := floor_le_roundHalfEven b
    omega
  · have hfe : ⌊a⌋ = ⌊b⌋ := le_antisymm (Int.floor_le_floor h) hf
    have hfa : (⌊a⌋ : ℚ) ≤ a := Int.floor_le a
    unfold roundHalfEven
    rw [hfe]
    split_ifs <;> first | omega | (exfalso; rw [hfe] at hfa; linarith)

theorem pad2_length_of_lt : ∀ m, m < 60 → (pad2 m).length = 2 := by decide

theorem codec_clamp (h : ℚ) (hneg : h < 0) :
    hours_to_duration_display h = hours_to_duration_display 0 := by
  unfold hours_to_duration_display
  rw [if_pos hneg, if_neg (lt_irrefl (0 : ℚ))]

unseal Rat.mul Rat.add Rat.sub Rat.inv in
theorem codec_zero : hours_to_duration_display 0 = "0:00:00" := by decide

theorem codec_decomp (h : ℚ) (h0 : 0 ≤ h) :
    ∃ n : ℕ, (n : ℤ) = roundHalfEven (h * 3600) ∧
      hours_to_duration_display h =
        toString (n / 3600) ++ ":" ++ pad2 (n % 3600 / 60) ++ ":" ++ pad2 (n % 60) ∧
      n % 3600 / 60 < 60 ∧ n % 60 < 60 ∧
      (pad2 (n % 3600 / 60)).length = 2 ∧ (pad2 (n % 60)).length = 2 := by
  have hnn : (0 : ℤ) ≤ roundHalfEven (h * 3600) := by
    have h1 : (0 : ℤ) ≤ ⌊h * 3600⌋ := Int.floor_nonneg.2 (by positivity)
    have h2 := floor_le_roundHalfEven (h * 3600)
    omega
  refine ⟨(roundHalfEven (h * 3600)).toNat, Int.toNat_of_nonneg hnn, ?_, ?_, ?_, ?_, ?_⟩
  · unfold hours_to_duration_display
    rw [if_neg (not_lt.2 h0)]
  · omega
  · omega
  · exact pad2_length_of_lt _ (by omega)
  · exact pad2_length_of_lt _ (by omega)

theorem macroCheck_cases (idx : ℕ) (m : JVal) (es : List FieldIssue) (r : ℕ)
    (h : macroCheck idx m = .ok (es, r)) :
    (badMicrosField m = true ∧ microsRuleIssue idx ∈ es ∧ r = 0) ∨
    (badMicrosField m = false ∧ r = 1 + (microsListOf m).length) := by
  cases m with
  | obj kvs =>
      cases hmi : alookup kvs "micros" with
      | none =>
          simp only [macroCheck, hmi] at h
          injection h with h1
          injection h1 with he hr
          subst he; subst hr
          left
          exact ⟨by simp [badMicrosField, hmi], by simp, rfl⟩
      | some v =>
          cases v with
          | arr l =>
              by_cases hl : l.isEmpty
              · simp only [macroCheck, hmi, if_pos hl] at h
                injection h with h1
                injection h1 with he hr
                subst he; subst hr
                left
                exact ⟨by simp [badMicrosField, hmi, hl], by simp, rfl⟩
              · simp only [macroCheck, hmi, if_neg hl] at h
                cases hms : microsIssuesFrom idx 0 l with
                | error e => rw [hms] at h; cases h
                | ok mi =>
                    rw [hms] at h
                    injection h with h1
                    injection h1 with he hr
                    subst he; subst hr
                    right
                    refine ⟨by simp [badMicrosField, hmi]; simpa using hl, ?_⟩
                    simp [microsListOf, hmi]
          | null =>
              simp only [macroCheck, hmi] at h
              injection h with h1
              injection h1 with he hr
              subst he; subst hr
              left
              exact ⟨by simp [badMicrosField, hmi], by simp, rfl⟩
          | bool b =>
              simp only [macroCheck, hmi] at h
              injection h with h1
              injection h1 with he hr
              subst he; subst hr
              left
              exact ⟨by simp [badMicrosField, hmi], by simp, rfl⟩
          | num q =>
              simp only [macroCheck, hmi] at h
              injection h with h1
              injection h1 with he hr
              subst he; subst hr
              left
              exact ⟨by simp [badMicrosField, hmi], by simp, rfl⟩
          | str s =>
              simp only [macroCheck, hmi] at h
              injection h with h1
              injection h1 with he hr
              subst he; subst hr
              left
              exact ⟨by simp [badMicrosField, hmi], by simp, rfl⟩
          | obj k2 =>
              simp only [macroCheck, hmi] at h
              injection h with h1
              injection h1 with he hr
              subst he; subst hr
              left
              exact ⟨by simp [badMicrosField, hmi], by simp, rfl⟩
  | null => cases h
  | bool b => cases h
  | num q => cases h
  | str s => cases h
  | arr xs => cases h

theorem macrosCheck_rows (idx : ℕ) (ms : List JVal) :
    ∀ (es : List FieldIssue) (r : ℕ),
    macrosCheck idx ms = .ok (es, r) → es = [] →
    r = (ms.map (fun m => 1 + (microsListOf m).length)).sum := by
  induction ms generalizing idx with
  | nil =>
      intro es r h _
      simp only [macrosCheck] at h
      injection h with h1
      injection h1 with he hr
      subst hr; simp
  | cons m rest ih =>
      intro es r h hes
      simp only [macrosCheck] at h
      cases hm : macroCheck idx m with
      | error e => rw [hm] at h; cases h
      | ok p1 =>
          obtain ⟨e1, r1⟩ := p1
          rw [hm] at h
          cases hr : macrosCheck (idx + 1) rest with
          | error e => rw [hr] at h; cases h
          | ok p2 =>
              obtain ⟨e2, r2⟩ := p2
              rw [hr] at h
              injection h with h1
              injection h1 with he hrr
              subst he; subst hrr
              have he1 : e1 = [] := (List.append_eq_nil.mp hes).1
              have he2 : e2 = [] := (List.append_eq_nil.mp hes).2
              rcases macroCheck_cases idx m e1 r1 hm with ⟨_, hmem, _⟩ | ⟨_, hlen⟩
              · rw [he1] at hmem; cases hmem
              · rw [hlen, ih (idx + 1) e2 r2 hr he2]
                simp

theorem macrosCheck_mem (idx : ℕ) (ms : List JVal) :
    ∀ (es : List FieldIssue) (r : ℕ) (i : ℕ) (m : JVal),
    macrosCheck idx ms = .ok (es, r) → ms.get? i = some m → badMicrosField m = true →
    microsRuleIssue (idx + i) ∈ es := by
  induction ms generalizing idx with
  | nil => intro es r i m _ hg; cases i <;> cases hg
  | cons m0 rest ih =>
      intro es r i m h hg hbad
      simp only [macrosCheck] at h
      cases hm : macroCheck idx m0 with
      | error e => rw [hm] at h; cases h
      | ok p1 =>
          obtain ⟨e1, r1⟩ := p1
          rw [hm] at h
          cases hr : macrosCheck (idx + 1) rest with
          | error e => rw [hr] at h; cases h
          | ok p2 =>
              obtain ⟨e2, r2⟩ := p2
              rw [hr] at h
              injection h with h1
              injection h1 with he hrr
              subst he; subst hrr
              cases i with
              | zero =>
                  simp only [List.get?] at hg
                  injection hg with hg1
                  subst hg1
                  rcases macroCheck_cases idx m0 e1 r1 hm with ⟨_, hmem, _⟩ | ⟨hfalse, _⟩
                  · simpa using List.mem_append_left e2 hmem
                  · rw [hbad] at hfalse; cases hfalse
              | succ j =>
                  simp only [List.get?] at hg
                  have hstep := ih (idx + 1) e2 r2 j m hr hg hbad
                  have harith : idx + 1 + j = idx + (j + 1) := by omega
                  rw [harith] at hstep
                  exact List.mem_append_right e1 hstep

theorem validate_payload_arr (D : ℕ) (payload : List (String × JVal)) (ms : List JVal)
    (r : Option ErrorResponse)
    (hms : alookup payload "macros" = some (.arr ms))
    (hne : ms.isEmpty = false)
    (h : validate_payload D payload = .ok r) :
    ∃ projErrs macErrs rows limit,
      projectIssues payload = .ok projErrs ∧
      macrosCheck 0 ms = .ok (macErrs, rows) ∧
      ceilingOf D payload = .ok limit ∧
      checkedRows payload = .ok (1 + rows) ∧
      ((((1 + rows : ℕ) : ℚ) > limit ∧
          r = some (maxRowsError (1 + rows) limit (projErrs ++ macErrs))) ∨
       (¬ (((1 + rows : ℕ) : ℚ) > limit) ∧ projErrs ++ macErrs = [] ∧ r = none) ∨
       (¬ (((1 + rows : ℕ) : ℚ) > limit) ∧ projErrs ++ macErrs ≠ [] ∧
          r = some (validationError (projErrs ++ macErrs)))) := by
  cases hp : projectIssues payload with
  | error e =>
      simp only [validate_payload, hp] at h
      exact Except.noConfusion h
  | ok projErrs =>
      simp only [validate_payload, hp, hms, hne] at h
      rw [if_neg (by simp [hne])] at h
      cases hmc : macrosCheck 0 ms with
      | error e => rw [hmc] at h; cases h
      | ok p1 =>
          obtain ⟨macErrs, rows⟩ := p1
          rw [hmc] at h
          cases hc : ceilingOf D payload with
          | error e => rw [hc] at h; cases h
          | ok limit =>
              rw [hc] at h
              dsimp only at h
              refine ⟨projErrs, macErrs, rows, limit, rfl, rfl, rfl, ?_, ?_⟩
              · simp [checkedRows, hms, hne, hmc]
              · by_cases hgt : ((1 + rows : ℕ) : ℚ) > limit
                · rw [if_pos hgt] at h
                  injection h with h1
                  exact Or.inl ⟨hgt, h1.symm⟩
                · rw [if_neg hgt] at h
                  by_cases hemp : (projErrs ++ macErrs).isEmpty
                  · rw [if_pos hemp] at h
                    injection h with h1
                    exact Or.inr (Or.inl ⟨hgt, by simpa using hemp, h1.symm⟩)
                  · rw [if_neg hemp] at h
                    injection h with h1
                    exact Or.inr (Or.inr ⟨hgt, by simpa using hemp, h1.symm⟩)

theorem alookup_eq_none {α : Type} (l : List (String × α)) (t : String)
    (h : ∀ v, (t, v) ∉ l) : alookup l t = none := by
  induction l with
  | nil => rfl
  | cons p rest ih =>
      obtain ⟨k, v⟩ := p
      by_cases hk : k = t
      · subst hk
        exact absurd (List.mem_cons_self _ _) (h v)
      · simp only [alookup, if_neg hk]
        exact ih (fun w hw => h w (List.mem_cons_of_mem _ hw))

theorem alookup_filter_keep {α : Type} (p : String × α → Bool) (l : List (String × α))
    (t : String) (v : α) (h : alookup l t = some v) (hp : p (t, v) = true) :
    alookup (l.filter p) t = some v := by
  induction l with
  | nil => cases h
  | cons q rest ih =>
      obtain ⟨k, w⟩ := q
      by_cases hk : k = t
      · subst hk
        simp only [alookup, if_pos rfl] at h
        injection h with h1
        subst h1
        simp [List.filter_cons, hp, alookup]
      · simp only [alookup, if_neg hk] at h
        cases hq : p (k, w)
        · simp only [List.filter_cons, hq]
          exact ih h
        · simp only [List.filter_cons, hq, alookup, if_neg hk]
          exact ih h

theorem alookup_filter_ne_token (l : List (String × FileInfo)) (t : String) :
    alookup (l.filter (fun p => p.1 ≠ t)) t = none := by
  apply alookup_eq_none
  intro v hv
  have hmf := List.mem_filter.mp hv
  simp at hmf

theorem dictSet_mem_value (l : List (String × FileInfo)) (t : String) (v w : FileInfo)
    (h : (t, w) ∈ dictSet l t v) : w = v := by
  unfold dictSet at h
  by_cases ha : l.any (fun p => p.1 = t)
  · rw [if_pos ha] at h
    obtain ⟨q, hq, heq⟩ := List.mem_map.mp h
    by_cases hq1 : q.1 = t
    · rw [if_pos hq1] at heq
      injection heq with h1 h2
      exact h2.symm
    · rw [if_neg hq1] at heq
      exact absurd (congrArg Prod.fst heq) hq1
  · rw [if_neg ha] at h
    rcases List.mem_append.mp h with hl | hr
    · exfalso
      apply ha
      exact List.any_eq_true.mpr ⟨(t, w), hl, by simp⟩
    · simp at hr
      exact hr

theorem mem_dictSet_self (l : List (String × FileInfo)) (t : String) (v : FileInfo) :
    (t, v) ∈ dictSet l t v := by
  unfold dictSet
  by_cases ha : l.any (fun p => p.1 = t)
  · rw [if_pos ha]
    obtain ⟨q, hq, hq1⟩ := List.any_eq_true.mp ha
    refine List.mem_map.mpr ⟨q, hq, ?_⟩
    simp at hq1
    rw [if_pos hq1]
  · rw [if_neg ha]
    exact List.mem_append_right l (by simp)

theorem sweepDisk_not_mem (now : ℤ) (delOk : String → Bool) :
    ∀ (es : List (String × FileInfo)) (disk : List String) (x : String),
    x ∉ disk → x ∉ sweepDisk now delOk es disk := by
  intro es
  induction es with
  | nil => intro disk x h; exact h
  | cons p rest ih =>
      intro disk x h
      obtain ⟨t, info⟩ := p
      simp only [sweepDisk]
      apply ih
      split_ifs with hc
      · intro hx
        exact h (List.mem_of_mem_filter hx)
      · exact h

theorem sweepDisk_removes (now : ℤ) (delOk : String → Bool) :
    ∀ (es : List (String × FileInfo)) (disk : List String) (t : String) (info : FileInfo),
    (t, info) ∈ es → info.expires_at < now → delOk info.filepath = true →
    info.filepath ∉ sweepDisk now delOk es disk := by
  intro es
  induction es with
  | nil => intro disk t info h; cases h
  | cons p rest ih =>
      intro disk t info hmem hexp hdel
      obtain ⟨t0, info0⟩ := p
      rcases List.mem_cons.mp hmem with heq | hrest
      · injection heq with h1 h2
        subst h2
        simp only [sweepDisk]
        rw [if_pos ⟨hexp, hdel⟩]
        apply sweepDisk_not_mem
        intro hx
        have hmf := List.mem_filter.mp hx
        simp at hmf
      · simp only [sweepDisk]
        exact ih _ t info hrest hexp hdel

theorem microPath_name_ne_hours (i m : ℕ) : microPath i m "name" ≠ microPath i m "hours" := by
  intro h
  have hlen := congrArg String.length h
  simp only [microPath, String.length_append] at hlen
  have h4 : String.length "name" = 4 := rfl
  have h5 : String.length "hours" = 5 := rfl
  omega

/-
The claims.
-/

unseal Rat.mul Rat.add Rat.sub Rat.inv in
/-- C1 counterexample: the claim says encode uses round-half-up semantics
(not banker's rounding). At hours = 1/32 (exactly representable as a Python
float, with 1/32 * 3600 = 112.5 computed exactly), the code's Python round()
gives 112 seconds, hence "0:01:52", while round-half-up mandates 113 seconds,
hence "0:01:53". -/
theorem claim_C1_cex :
    hours_to_duration_display (1/32) = "0:01:52" ∧
    encodeSpecHalfUp (1/32) = "0:01:53" ∧
    hours_to_duration_display (1/32) ≠ encodeSpecHalfUp (1/32) := by
  exact ⟨by decide, by decide, by decide⟩

unseal Rat.mul Rat.add Rat.sub Rat.inv in
/-- C1 (amended): encode clamps negative input to 0, computes totalSeconds =
round(hours * 3600) using Python's round-half-to-even (banker's) semantics,
and emits H:MM:SS with minutes and seconds zero-padded to two digits and H
unbounded (H = totalSeconds / 3600, never wrapped into days); in particular
encode(247.6667) = "247:40:00". -/
theorem claim_C1 :
    (∀ h : ℚ, h < 0 → hours_to_duration_display h = "0:00:00") ∧
    (∀ h : ℚ, 0 ≤ h → ∃ n : ℕ, (n : ℤ) = roundHalfEven (h * 3600) ∧
      hours_to_duration_display h =
        toString (n / 3600) ++ ":" ++ pad2 (n % 3600 / 60) ++ ":" ++ pad2 (n % 60) ∧
      n % 3600 / 60 < 60 ∧ n % 60 < 60 ∧
      (pad2 (n % 3600 / 60)).length = 2 ∧ (pad2 (n % 60)).length = 2) ∧
    hours_to_duration_display (2476667 / 10000) = "247:40:00" := by
  refine ⟨?_, codec_decomp, by decide⟩
  intro h hneg
  rw [codec_clamp h hneg]
  exact codec_zero

unseal Rat.mul Rat.add Rat.sub Rat.inv in
/-- C1 witness: the clamp at hours = -1 and the decomposition at hours = 1. -/
theorem claim_C1_witness :
    hours_to_duration_display (-1) = "0:00:00" ∧
    (∃ n : ℕ, (n : ℤ) = roundHalfEven ((1 : ℚ) * 3600) ∧
      hours_to_duration_display 1 =
        toString (n / 3600) ++ ":" ++ pad2 (n % 3600 / 60) ++ ":" ++ pad2 (n % 60) ∧
      n % 3600 / 60 < 60 ∧ n % 60 < 60 ∧
      (pad2 (n % 3600 / 60)).length = 2 ∧ (pad2 (n % 60)).length = 2) :=
  ⟨claim_C1.1 (-1) (by decide), claim_C1.2.1 1 (by decide)⟩

/-- C2 counterexample: the claim says the validator checks exactly
Σ (1 + micros) rows when includeProjectRow is false. cexPayloadC2 passes
validation with include_project_row = false, yet the validator checks 3 rows
where the claim predicts specRowCount false = 2: validate_payload always
counts the project row. -/
theorem claim_C2_cex :
    validate_payload 500 cexPayloadC2 = .ok none ∧
    include_project_row cexPayloadC2 = .ok (.bool false) ∧
    checkedRows cexPayloadC2 = .ok 3 ∧
    specRowCount false cexMacrosC2 = 2 ∧
    checkedRows cexPayloadC2 ≠ .ok (specRowCount false cexMacrosC2) := by
  refine ⟨by decide, rfl, by decide, by decide, by decide⟩

/-- C2 (amended): for every tree that passes validation, the row count the
validator checks against the ceiling equals 1 + Σ over macros
(1 + number of micros) regardless of includeProjectRow — the validator always
counts the project row; only the generator honors includeProjectRow. -/
theorem claim_C2 : ∀ (D : ℕ) (payload : List (String × JVal)) (ms : List JVal),
    alookup payload "macros" = some (.arr ms) →
    validate_payload D payload = .ok none →
    checkedRows payload = .ok (specRowCount true ms) ∧
    specRowCount true ms = 1 + (ms.map (fun m => 1 + (microsListOf m).length)).sum := by
  intro D payload ms hms hv
  have hne : ms.isEmpty = false := by
    cases hE : ms.isEmpty
    · rfl
    · exfalso
      cases hp : projectIssues payload with
      | error e =>
          simp only [validate_payload, hp] at hv
          exact Except.noConfusion hv
      | ok projErrs =>
          simp only [validate_payload, hp, hms, hE, if_pos] at hv
          exact Option.noConfusion (Except.ok.inj hv)
  obtain ⟨pe, me, rows, limit, hp, hmc, hc, hcr, hcase⟩ :=
    validate_payload_arr D payload ms none hms hne hv
  rcases hcase with ⟨_, habs⟩ | ⟨_, hemp, _⟩ | ⟨_, _, habs⟩
  · exact Option.noConfusion habs
  · have hme : me = [] := (List.append_eq_nil.mp hemp).2
    have hsum := macrosCheck_rows 0 ms me rows hmc hme
    constructor
    · rw [hcr, hsum]
      simp [specRowCount]
    · simp [specRowCount]
  · exact Option.noConfusion habs

/-- C2 witness: the amended row count at the concrete valid payload. -/
theorem claim_C2_witness :
    checkedRows cexPayloadC2 = .ok (specRowCount true cexMacrosC2) ∧
    specRowCount true cexMacrosC2 =
      1 + (cexMacrosC2.map (fun m => 1 + (microsListOf m).length)).sum :=
  claim_C2 500 cexPayloadC2 cexMacrosC2 rfl (by decide)

/-- C3 counterexample: the claim says Validate performs Sweep and then
validation. On a state with an expired entry, validar leaves the state
untouched whereas the Sweep the claim mandates would have changed it
(removed the expired entry and its file): validar never sweeps. -/
theorem claim_C3_cex :
    (validar 500 [] cexStateC3).2 = cexStateC3 ∧
    cleanup_expired_files 10 (fun _ => true) cexStateC3 ≠ cexStateC3 :=
  ⟨rfl, by decide⟩

/-- C3 (amended): for every payload, the Validate operation performs
validation only (no Sweep), returning either the structured error or the
ok preview, and never touches the filesystem or the registry: the server
state is returned unchanged. -/
theorem claim_C3 : ∀ (D : ℕ) (payload : List (String × JVal)) (st : ServerState),
    (validar D payload st).2 = st ∧
    ((∃ e, (validar D payload st).1 = .errResp e) ∨
     (∃ pv, (validar D payload st).1 = .okPreview pv)) := by
  intro D p st
  refine ⟨rfl, ?_⟩
  cases h : (validar D p st).1 with
  | okPreview pv => exact Or.inr ⟨pv, rfl⟩
  | errResp e => exact Or.inl ⟨e, rfl⟩

/-- C4 counterexample: the claim says a macro with empty micros always
yields errorCode VALIDATION_ERROR regardless of every other field being
valid and of any setting. With all other fields valid and the valid positive
setting max_rows = 1, the code returns MAX_ROWS_EXCEEDED instead (the
micros detail is still present in details). -/
theorem claim_C4_cex :
    badMicrosField cexMacroC4A = true ∧
    validate_payload 500 cexPayloadC4 = .ok (some (maxRowsError 3 1 [microsRuleIssue 0])) ∧
    (maxRowsError 3 1 [microsRuleIssue 0]).error_code ≠ "VALIDATION_ERROR" ∧
    microsRuleIssue 0 ∈ (maxRowsError 3 1 [microsRuleIssue 0]).details := by
  refine ⟨by decide, by decide, by decide, by decide⟩

/-- C4 (amended): for every payload containing a macro whose micros field is
absent, not a list, or empty, any non-raising run of validate rejects the
payload with a detail entry whose field path references that macro's micros;
the errorCode is VALIDATION_ERROR unless the computed row count exceeds the
ceiling, in which case it is MAX_ROWS_EXCEEDED. -/
theorem claim_C4 : ∀ (D : ℕ) (payload : List (String × JVal)) (ms : List JVal) (i : ℕ)
    (m : JVal) (r : Option ErrorResponse),
    alookup payload "macros" = some (.arr ms) →
    ms.get? i = some m →
    badMicrosField m = true →
    validate_payload D payload = .ok r →
    ∃ e, r = some e ∧ microsRuleIssue i ∈ e.details ∧
      ∃ n limit, checkedRows payload = .ok n ∧ ceilingOf D payload = .ok limit ∧
        (((n : ℚ) > limit ∧ e.error_code = "MAX_ROWS_EXCEEDED") ∨
         (¬ ((n : ℚ) > limit) ∧ e.error_code = "VALIDATION_ERROR")) := by
  intro D payload ms i m r hms hg hbad hv
  have hne : ms.isEmpty = false := by
    cases ms
    · cases i <;> cases hg
    · rfl
  obtain ⟨pe, me, rows, limit, hp, hmc, hc, hcr, hcase⟩ :=
    validate_payload_arr D payload ms r hms hne hv
  have hmem : microsRuleIssue i ∈ me := by
    have hstep := macrosCheck_mem 0 ms me rows i m hmc hg hbad
    simpa using hstep
  rcases hcase with ⟨hgt, hr⟩ | ⟨hngt, hemp, _⟩ | ⟨hngt, hnemp, hr⟩
  · refine ⟨maxRowsError (1 + rows) limit (pe ++ me), hr, ?_, 1 + rows, limit, hcr, hc,
      Or.inl ⟨hgt, rfl⟩⟩
    simp only [maxRowsError, List.mem_append]
    exact Or.inl (Or.inr hmem)
  · exfalso
    have hme : me = [] := (List.append_eq_nil.mp hemp).2
    rw [hme] at hmem
    cases hmem
  · refine ⟨validationError (pe ++ me), hr, ?_, 1 + rows, limit, hcr, hc,
      Or.inr ⟨hngt, rfl⟩⟩
    simp only [validationError, List.mem_append]
    exact Or.inr hmem

/-- C4 witness: the one-bad-macro payload, where the ceiling is not
exceeded and the errorCode is VALIDATION_ERROR. -/
theorem claim_C4_witness :
    ∃ e, (some (validationError [microsRuleIssue 0]) : Option ErrorResponse) = some e ∧
      microsRuleIssue 0 ∈ e.details ∧
      ∃ n limit, checkedRows payloadC4w = .ok n ∧ ceilingOf 500 payloadC4w = .ok limit ∧
        (((n : ℚ) > limit ∧ e.error_code = "MAX_ROWS_EXCEEDED") ∨
         (¬ ((n : ℚ) > limit) ∧ e.error_code = "VALIDATION_ERROR")) :=
  claim_C4 500 payloadC4w [cexMacroC4A] 0 cexMacroC4A
    (some (validationError [microsRuleIssue 0])) rfl rfl (by decide) (by decide)

/-- C5: for every payload whose computed row count exceeds the ceiling
(settings.max_rows when present, else the process-wide default, both
captured by ceilingOf), any non-raising run of validate returns
MAX_ROWS_EXCEEDED carrying the exact computed row count and the limit, in
the message and in the total_rows detail, regardless of other errors. -/
theorem claim_C5 : ∀ (D : ℕ) (payload : List (String × JVal)) (n : ℕ) (limit : ℚ)
    (r : Option ErrorResponse),
    checkedRows payload = .ok n →
    ceilingOf D payload = .ok limit →
    (n : ℚ) > limit →
    validate_payload D payload = .ok r →
    ∃ errs, r = some (maxRowsError n limit errs) ∧
      (maxRowsError n limit errs).error_code = "MAX_ROWS_EXCEEDED" ∧
      (maxRowsError n limit errs).message =
        "O cronograma possui " ++ toString n ++ " linhas, excedendo o limite de " ++
          toString limit ∧
      totalRowsIssue n limit ∈ (maxRowsError n limit errs).details := by
  intro D payload n limit r hcr hc hgt hv
  cases hms : alookup payload "macros" with
  | none => simp [checkedRows, hms] at hcr
  | some v =>
      cases v with
      | arr ms =>
          have hne : ms.isEmpty = false := by
            cases hE : ms.isEmpty
            · rfl
            · simp [checkedRows, hms, hE] at hcr
          obtain ⟨pe, me, rows, limit2, hp, hmc, hc2, hcr2, hcase⟩ :=
            validate_payload_arr D payload ms r hms hne hv
          have hl2 : limit2 = limit := (Except.ok.inj (hc.symm.trans hc2)).symm
          have hn : n = 1 + rows := Except.ok.inj (hcr.symm.trans hcr2)
          subst hl2
          subst hn
          rcases hcase with ⟨_, hr⟩ | ⟨hngt, _, _⟩ | ⟨hngt, _, _⟩
          · exact ⟨pe ++ me, hr, rfl, rfl, by simp [maxRowsError]⟩
          · exact absurd hgt hngt
          · exact absurd hgt hngt
      | null => simp [checkedRows, hms] at hcr
      | bool b => simp [checkedRows, hms] at hcr
      | num q => simp [checkedRows, hms] at hcr
      | str s => simp [checkedRows, hms] at hcr
      | obj kvs => simp [checkedRows, hms] at hcr

set_option maxRecDepth 4000 in
/-- C5 witness: the 300-micro scenario (302 computed rows, max_rows = 100)
yields MAX_ROWS_EXCEEDED with the exact count 302 and limit 100. -/
theorem claim_C5_witness :
    ∃ errs, (some (maxRowsError 302 100 []) : Option ErrorResponse) =
        some (maxRowsError 302 100 errs) ∧
      (maxRowsError 302 100 errs).error_code = "MAX_ROWS_EXCEEDED" ∧
      (maxRowsError 302 100 errs).message =
        "O cronograma possui " ++ toString (302 : ℕ) ++
          " linhas, excedendo o limite de " ++ toString (100 : ℚ) ∧
      totalRowsIssue 302 100 ∈ (maxRowsError 302 100 errs).details :=
  claim_C5 500 payloadC5 302 100 (some (maxRowsError 302 100 []))
    (by decide) (by decide) (by decide) (by decide)

/-- C6: an entry registered by Put (registerGeneratedFile) whose ttl has
elapsed is, once Sweep runs and the deletion of its backing file succeeds,
gone from disk, and a subsequent Get (download_file) returns NotFound. -/
theorem claim_C6 : ∀ (st : ServerState) (t fp fn : String) (now ttl now2 : ℤ)
    (delOk : String → Bool),
    delOk fp = true → now + ttl < now2 →
    fp ∉ (cleanup_expired_files now2 delOk (registerGeneratedFile st t fp fn now ttl)).disk ∧
    (download_file t now2 delOk
      (cleanup_expired_files now2 delOk (registerGeneratedFile st t fp fn now ttl))).1 =
      .notFound := by
  intro st t fp fn now ttl now2 delOk hdel hexp
  have hmem : (t, (⟨fp, fn, now + ttl⟩ : FileInfo)) ∈
      (registerGeneratedFile st t fp fn now ttl).registry := mem_dictSet_self _ _ _
  constructor
  · exact sweepDisk_removes now2 delOk _ _ t _ hmem hexp hdel
  · have hnone : ∀ v, (t, v) ∉
        (cleanup_expired_files now2 delOk (registerGeneratedFile st t fp fn now ttl)).registry := by
      intro v hv
      have h2 := List.mem_filter.mp hv
      have hval : v = ⟨fp, fn, now + ttl⟩ := dictSet_mem_value st.registry t _ v h2.1
      have h3 := h2.2
      rw [hval] at h3
      simp at h3
      omega
    have hn3 : ∀ v, (t, v) ∉
        (cleanup_expired_files now2 delOk (cleanup_expired_files now2 delOk
          (registerGeneratedFile st t fp fn now ttl))).registry := by
      intro v hv
      exact hnone v (List.mem_filter.mp hv).1
    have hlk : alookup (cleanup_expired_files now2 delOk (cleanup_expired_files now2 delOk
        (registerGeneratedFile st t fp fn now ttl))).registry t = none :=
      alookup_eq_none _ _ hn3
    simp only [download_file]
    rw [hlk]

/-- C6 witness: a concrete Put at time 0 with ttl 10, swept at time 20. -/
theorem claim_C6_witness :
    "f.xlsx" ∉ (cleanup_expired_files 20 (fun _ => true)
      (registerGeneratedFile ⟨[], []⟩ "tok" "f.xlsx" "f.xlsx" 0 10)).disk ∧
    (download_file "tok" 20 (fun _ => true)
      (cleanup_expired_files 20 (fun _ => true)
        (registerGeneratedFile ⟨[], []⟩ "tok" "f.xlsx" "f.xlsx" 0 10))).1 = .notFound :=
  claim_C6 ⟨[], []⟩ "tok" "f.xlsx" "f.xlsx" 0 10 20 (fun _ => true) rfl (by decide)

/-- C7: a Fetch that finds a non-expired entry whose backing file is missing
from disk returns NotFound and purges the entry from the registry. -/
theorem claim_C7 : ∀ (st : ServerState) (t : String) (info : FileInfo) (now : ℤ)
    (delOk : String → Bool),
    alookup st.registry t = some info →
    ¬ info.expires_at < now →
    info.filepath ∉ st.disk →
    (download_file t now delOk st).1 = .notFound ∧
    alookup (download_file t now delOk st).2.registry t = none := by
  intro st t info now delOk hlk hnexp hnd
  have hlk1 : alookup (cleanup_expired_files now delOk st).registry t = some info := by
    apply alookup_filter_keep _ _ _ _ hlk
    simp [hnexp]
  have hnd1 : info.filepath ∉ (cleanup_expired_files now delOk st).disk :=
    sweepDisk_not_mem now delOk st.registry st.disk _ hnd
  simp only [download_file]
  rw [hlk1]
  dsimp only
  rw [if_neg hnd1]
  exact ⟨rfl, alookup_filter_ne_token _ t⟩

/-- C7 witness: a non-expired token whose file was externally deleted. -/
theorem claim_C7_witness :
    (download_file "tok" 5 (fun _ => false) stateC7).1 = .notFound ∧
    alookup (download_file "tok" 5 (fun _ => false) stateC7).2.registry "tok" = none :=
  claim_C7 stateC7 "tok" ⟨"gone.xlsx", "gone.xlsx", 100⟩ 5 (fun _ => false)
    rfl (by decide) (by decide)

/-- C8: after Sweep(now), an entry is in the registry iff it was there and
is not expired — the registry outcome does not depend on the file-deletion
oracle at all (deletion failures are swallowed), and each expired entry's
file whose own deletion succeeds is gone even if other deletions fail. -/
theorem claim_C8 : ∀ (now : ℤ) (delOk : String → Bool) (st : ServerState),
    (∀ t info, (t, info) ∈ (cleanup_expired_files now delOk st).registry ↔
      ((t, info) ∈ st.registry ∧ ¬ info.expires_at < now)) ∧
    (∀ delOk2, (cleanup_expired_files now delOk st).registry =
      (cleanup_expired_files now delOk2 st).registry) ∧
    (∀ t info, (t, info) ∈ st.registry → info.expires_at < now →
      delOk info.filepath = true →
      info.filepath ∉ (cleanup_expired_files now delOk st).disk) := by
  intro now delOk st
  refine ⟨?_, fun _ => rfl, ?_⟩
  · intro t info
    constructor
    · intro h
      have hmf := List.mem_filter.mp h
      refine ⟨hmf.1, ?_⟩
      have h2 := hmf.2
      simp at h2
      exact not_lt.mpr h2
    · intro hh
      refine List.mem_filter.mpr ⟨hh.1, ?_⟩
      simp [hh.2]
  · intro t info h1 h2 h3
    exact sweepDisk_removes now delOk st.registry st.disk t info h1 h2 h3

/-- C8 witness: a concrete expired entry whose file deletion succeeds. -/
theorem claim_C8_witness :
    "f" ∉ (cleanup_expired_files 10 (fun _ => true) stateC8).disk :=
  (claim_C8 10 (fun _ => true) stateC8).2.2 "t" ⟨"f", "f", 0⟩ (by decide) (by decide) rfl

/-- C9: the duration denoted by the encoded string (durationSeconds, with
hours_to_duration_display = renderHMS of it definitionally) is monotone in
hours on hours ≥ 0, and encode(0) = "0:00:00". -/
theorem claim_C9 :
    (∀ h1 h2 : ℚ, 0 ≤ h1 → h1 ≤ h2 → durationSeconds h1 ≤ durationSeconds h2) ∧
    (∀ h : ℚ, hours_to_duration_display h = renderHMS (durationSeconds h)) ∧
    hours_to_duration_display 0 = "0:00:00" := by
  refine ⟨?_, fun h => rfl, codec_zero⟩
  intro h1 h2 h0 h12
  unfold durationSeconds
  rw [if_neg (not_lt.2 h0), if_neg (not_lt.2 (h0.trans h12))]
  exact Int.toNat_le_toNat
    (roundHalfEven_mono (mul_le_mul_of_nonneg_right h12 (by norm_num)))

/-- C9 witness: monotonicity applied at hours 1 and 2. -/
theorem claim_C9_witness : durationSeconds 1 ≤ durationSeconds 2 :=
  claim_C9.1 1 2 (by decide) (by decide)

unseal Rat.mul Rat.add Rat.sub Rat.inv in
/-- C10: a micro whose hours field is a numeric string with positive float
value is validated with no issue recorded for its hours field, exactly as if
it carried the corresponding number, and the float() coercion feeds the same
number into the totals loop wherever the micro sits in the list. -/
theorem claim_C10 : ∀ (idx midx : ℕ) (kvs : List (String × JVal)) (s : String) (q : ℚ),
    parsePyFloat s = some q → 0 < q →
    alookup kvs "hours" = some (.str s) →
    (∀ kvs2, alookup kvs2 "name" = alookup kvs "name" →
       alookup kvs2 "hours" = some (.num q) →
       microIssues idx midx (.obj kvs) = microIssues idx midx (.obj kvs2)) ∧
    (∀ es, microIssues idx midx (.obj kvs) = .ok es →
       ∀ iss ∈ es, iss.field ≠ microPath idx midx "hours") ∧
    pyFloat (.str s) = pyFloat (.num q) ∧
    (∀ kvs2 pre post, alookup kvs2 "hours" = some (.num q) →
       microsTotals (pre ++ .obj kvs :: post) = microsTotals (pre ++ .obj kvs2 :: post)) := by
  intro idx midx kvs s q hp hq hh
  have hpf : pyFloat (.str s) = some q := hp
  have hnle : ¬ (q ≤ 0) := not_le.mpr hq
  refine ⟨?_, ?_, by simp [pyFloat, hp], ?_⟩
  · intro kvs2 hn2 hh2
    simp only [microIssues, hh, hh2, hn2, pyFloat, hp]
  · intro es hes iss hmem hfield
    simp only [microIssues, hh, pyFloat, hp] at hes
    rw [if_neg hnle] at hes
    injection hes with h1
    subst h1
    rcases List.mem_append.mp hmem with h | h
    · by_cases ht : truthyO (alookup kvs "name")
      · rw [if_pos ht] at h
        cases h
      · rw [if_neg ht] at h
        simp at h
        rw [h] at hfield
        exact microPath_name_ne_hours idx midx hfield
    · cases h
  · intro kvs2 pre post hh2
    induction pre with
    | nil =>
        simp only [List.nil_append, microsTotals, hh, hh2, pyFloat, hp]
    | cons x xs ih =>
        cases x <;> simp only [List.cons_append, microsTotals, List.append_eq, ih]

unseal Rat.mul Rat.add Rat.sub Rat.inv in
/-- C10 witness: hours = "8" behaves exactly like hours = 8. -/
theorem claim_C10_witness :
    microIssues 0 0 (.obj kvsC10) = microIssues 0 0 (.obj kvsC10n) ∧
    pyFloat (.str "8") = pyFloat (.num 8) ∧
    microsTotals ([] ++ .obj kvsC10 :: []) = microsTotals ([] ++ .obj kvsC10n :: []) := by
  have h := claim_C10 0 0 kvsC10 "8" 8 (by decide) (by decide) rfl
  exact ⟨h.1 kvsC10n rfl rfl, h.2.2.1, h.2.2.2 kvsC10n [] [] rfl⟩

end Cronograma
